import Mathlib

/-!
Verification of the revo (evo) version-control core: a shallow embedding of the
CRDT operation model, the RGA engine, the binary op-log codec, the commit layer
(revert, cherry-pick, merge, filtered merge), the compactor and the ingest
differ, with theorems settling the specification claims about them.

Conventions used throughout the embedding:
* UUID-valued identifiers (NodeID, FileID, LineID, CommitID as a string) are
  modelled by the natural number denoted by their 16 bytes.  Go renders UUIDs
  as lowercase hex at fixed positions, so lexicographic order on
  `uuid.String()` agrees with numeric order on the value, and string equality
  with numeric equality; map keys formed from `uuid.String()` are therefore
  keyed directly by the numeric value.
* Go strings that the code treats as byte sequences (line contents, hashed
  bytes) are modelled as `List Nat` of their UTF-8 bytes; strings used only as
  labels (stream names, messages, commit ids) stay `String`.
* Machine integers are `Nat` with explicit `% 2 ^ w` at the points where the
  code truncates (byte framing); `time.Time` is an abstract instant in
  nanoseconds, with `Nat` subtraction matching the non-negative uses of
  `time.Sub` that occur here.
-/

set_option maxHeartbeats 1000000

namespace Revo

/-- `crdt.OpType` is a Go `int`: 0 = Insert, 1 = Update, 2 = Delete
(`const ( OpInsert OpType = iota; OpUpdate; OpDelete )`). -/
abbrev OpType := Nat

def OpInsert : OpType := 0
def OpUpdate : OpType := 1
def OpDelete : OpType := 2

/-- `crdt.Operation` (internal/crdt, operation model).  The Go field `Type` is
called `Typ` here because `Type` is reserved in Lean; `Content` holds the
UTF-8 bytes of the Go string. -/
structure Operation where
  Typ : OpType
  Lamport : Nat
  NodeID : Nat
  FileID : Nat
  LineID : Nat
  Content : List Nat
  Stream : String
  Timestamp : Nat
  Vector : List Int
  deriving Repr, DecidableEq

/-- A zero operation, used as a base for concrete examples. -/
def baseOp : Operation :=
  { Typ := 0, Lamport := 0, NodeID := 0, FileID := 0, LineID := 0
    Content := [], Stream := "", Timestamp := 0, Vector := [] }

/-- `Operation.LessThan`: order by Lamport, ties broken by the NodeID string
(numeric order, see the UUID convention above). -/
def Operation.LessThan (o other : Operation) : Bool :=
  if o.Lamport ≠ other.Lamport then decide (o.Lamport < other.Lamport)
  else decide (o.NodeID < other.NodeID)

/-- `Operation.CanCombine`: the source checks stream, file, non-Delete and
Lamport order only (it never compares `LineID` or `NodeID`). -/
def Operation.CanCombine (o other : Operation) : Bool :=
  if o.Stream ≠ other.Stream then false
  else if o.FileID ≠ other.FileID then false
  else if o.Typ = OpDelete ∨ other.Typ = OpDelete then false
  else decide (o.Lamport < other.Lamport)

/-- C9, counterexample: two Insert ops in the same stream and file with
different `LineID` and different `NodeID` are reported combinable by the code,
refuting the claim that `CanCombine` requires same line and same node. -/
theorem C9_canCombine_ignores_line_and_node :
    let o : Operation := { baseOp with Stream := "s", FileID := 1, LineID := 1, NodeID := 1, Lamport := 1 }
    let p : Operation := { baseOp with Stream := "s", FileID := 1, LineID := 2, NodeID := 2, Lamport := 2 }
    o.CanCombine p = true ∧ o.LineID ≠ p.LineID ∧ o.NodeID ≠ p.NodeID := by
  decide

/-- C9, amended: `CanCombine o p` returns true iff same stream, same file,
neither op is a Delete, and `o.Lamport < p.Lamport` (the line and node are not
compared). -/
theorem C9_canCombine_characterization (o p : Operation) :
    o.CanCombine p = true ↔
      (o.Stream = p.Stream ∧ o.FileID = p.FileID ∧
        o.Typ ≠ OpDelete ∧ p.Typ ≠ OpDelete ∧ o.Lamport < p.Lamport) := by
  unfold Operation.CanCombine
  split
  · rename_i h
    simp only [Bool.false_eq_true, false_iff]
    intro hc
    exact h hc.1
  · split
    · rename_i h
      simp only [Bool.false_eq_true, false_iff]
      intro hc
      exact h hc.2.1
    · split
      · rename_i h
        simp only [Bool.false_eq_true, false_iff]
        intro hc
        rcases h with h | h
        · exact hc.2.2.1 h
        · exact hc.2.2.2.1 h
      · rename_i h1 h2 h3
        push_neg at h1 h2 h3
        simp [h1, h2, h3.1, h3.2]

/-! ## Generic insertion sort

`sort.Slice` with a strict `less` comparator is modelled by a deterministic
insertion sort over the same comparator: both produce a permutation of the
input that is sorted with respect to `less`; they agree whenever the sort keys
are distinct (ties are unspecified in Go since `sort.Slice` is unstable). -/

def orderedInsertB {α : Type} (lt : α → α → Bool) (a : α) : List α → List α
  | [] => [a]
  | b :: t => if lt a b then a :: b :: t else b :: orderedInsertB lt a t

def insertionSortB {α : Type} (lt : α → α → Bool) : List α → List α
  | [] => []
  | a :: t => orderedInsertB lt a (insertionSortB lt t)

theorem mem_orderedInsertB {α : Type} (lt : α → α → Bool) (a x : α) (l : List α) :
    x ∈ orderedInsertB lt a l ↔ x = a ∨ x ∈ l := by
  induction l with
  | nil => simp [orderedInsertB]
  | cons b t ih =>
      unfold orderedInsertB
      split
      · simp [or_comm, or_assoc, or_left_comm]
      · simp [ih]
        tauto

theorem mem_insertionSortB {α : Type} (lt : α → α → Bool) (x : α) (l : List α) :
    x ∈ insertionSortB lt l ↔ x ∈ l := by
  induction l with
  | nil => simp [insertionSortB]
  | cons b t ih => simp [insertionSortB, mem_orderedInsertB, ih]

/-! ## RGA engine (internal/crdt/rga.go)

The reader-writer lock is a no-op in the sequential embedding; `Get` and
`Materialize` have identical bodies in the source and are both modelled by
`Materialize`.  The tombstone map keyed by `LineID.String()` is a membership
list keyed by the numeric LineID value. -/

/-- `crdt.RGAOperation`: an `Operation` plus the `Index` it was created at. -/
structure RGAOperation where
  Op : Operation
  Index : Nat
  deriving Repr, DecidableEq

/-- `crdt.RGA` state. -/
structure RGA where
  ops : List RGAOperation
  tombstone : List Nat
  deriving Repr, DecidableEq

def NewRGA : RGA := { ops := [], tombstone := [] }

/-- Comparator used by `Apply` for Insert re-sorting. -/
def rgaLt (a b : RGAOperation) : Bool := a.Op.LessThan b.Op

/-- The Update branch of `Apply`: replace the content of the first list entry
whose LineID matches, leaving the rest unchanged (the Go loop breaks at the
first hit). -/
def updateFirst (l : List RGAOperation) (op : Operation) : List RGAOperation :=
  match l with
  | [] => []
  | e :: t =>
      if e.Op.LineID = op.LineID then
        { e with Op := { e.Op with Content := op.Content } } :: t
      else e :: updateFirst t op

/-- `RGA.Apply`.  Insert appends then re-sorts; Delete only records the
tombstone (the Insert entry is retained); Update mutates the first entry with
the target LineID and fails when none exists; any other type tag fails. -/
def RGA.Apply (r : RGA) (op : Operation) : Except String RGA :=
  let rgaOp : RGAOperation := { Op := op, Index := r.ops.length }
  if op.Typ = OpInsert then
    .ok { r with ops := insertionSortB rgaLt (r.ops ++ [rgaOp]) }
  else if op.Typ = OpDelete then
    .ok { r with tombstone := op.LineID :: r.tombstone }
  else if op.Typ = OpUpdate then
    if r.ops.any (fun e => e.Op.LineID = op.LineID) then
      .ok { r with ops := updateFirst r.ops op }
    else .error "line not found for update"
  else .error "unknown operation type"

/-- `RGA.Materialize` (and the identical `RGA.Get`): contents of entries whose
LineID is not tombstoned, in entry order. -/
def RGA.Materialize (r : RGA) : List (List Nat) :=
  (r.ops.filter (fun e => ¬ r.tombstone.contains e.Op.LineID)).map (fun e => e.Op.Content)

/-- `RGA.GetOperations`: all entries in order, stripped of their index. -/
def RGA.GetOperations (r : RGA) : List Operation := r.ops.map (fun e => e.Op)

/-- `RGA.GetLineIDs`: LineIDs of the live (non-tombstoned) entries in order. -/
def RGA.GetLineIDs (r : RGA) : List Nat :=
  (r.ops.filter (fun e => ¬ r.tombstone.contains e.Op.LineID)).map (fun e => e.Op.LineID)

/-- The replay loop of `compact.CompactRGA` (and of ingest on a pre-validated
log): apply each op in order, skipping ops whose `Apply` fails. -/
def RGA.ApplySkipErr (r : RGA) (op : Operation) : RGA :=
  match r.Apply op with
  | .ok r2 => r2
  | .error _ => r

def buildRGA (ops : List Operation) : RGA := ops.foldl RGA.ApplySkipErr NewRGA

/-- C10: after Insert then Delete on line `L`, a later Update on `L` succeeds
(the retained Insert entry is found), overwrites the retained content, and `L`
still does not materialize. -/
theorem C10_update_after_delete (i d u : Operation) (L : Nat) (c : List Nat)
    (hi : i.Typ = OpInsert) (hiL : i.LineID = L)
    (hd : d.Typ = OpDelete) (hdL : d.LineID = L)
    (hu : u.Typ = OpUpdate) (huL : u.LineID = L) (huc : u.Content = c) :
    ∃ r3 : RGA,
      (NewRGA.Apply i).bind (fun r1 => r1.Apply d) = .ok { ops := [{ Op := i, Index := 0 }], tombstone := [L] } ∧
      RGA.Apply { ops := [{ Op := i, Index := 0 }], tombstone := [L] } u = .ok r3 ∧
      r3.ops.map (fun e => e.Op.Content) = [c] ∧
      r3.Materialize = [] := by
  refine ⟨{ ops := [{ Op := { i with Content := c }, Index := 0 }], tombstone := [L] }, ?_, ?_, ?_, ?_⟩
  · simp [RGA.Apply, NewRGA, hi, hd, hiL, hdL, OpInsert, OpUpdate, OpDelete,
      insertionSortB, orderedInsertB, Except.bind]
  · simp [RGA.Apply, hu, huL, hiL, huc, OpInsert, OpUpdate, OpDelete, updateFirst]
  · simp
  · simp [RGA.Materialize, hiL]

/-- C10 witness: the theorem at a concrete Insert/Delete/Update triple on
line 7. -/
theorem C10_update_after_delete_witness :
    ∃ r3 : RGA,
      (NewRGA.Apply { baseOp with Typ := 0, LineID := 7, Lamport := 1, Content := [97] }).bind
          (fun r1 => r1.Apply { baseOp with Typ := 2, LineID := 7, Lamport := 2 }) =
        .ok { ops := [{ Op := { baseOp with Typ := 0, LineID := 7, Lamport := 1, Content := [97] }, Index := 0 }], tombstone := [7] } ∧
      RGA.Apply { ops := [{ Op := { baseOp with Typ := 0, LineID := 7, Lamport := 1, Content := [97] }, Index := 0 }], tombstone := [7] }
          { baseOp with Typ := 1, LineID := 7, Lamport := 3, Content := [98] } = .ok r3 ∧
      r3.ops.map (fun e => e.Op.Content) = [[98]] ∧
      r3.Materialize = [] :=
  C10_update_after_delete
    { baseOp with Typ := 0, LineID := 7, Lamport := 1, Content := [97] }
    { baseOp with Typ := 2, LineID := 7, Lamport := 2 }
    { baseOp with Typ := 1, LineID := 7, Lamport := 3, Content := [98] }
    7 [98] rfl rfl rfl rfl rfl rfl rfl

/-! ## Op-log codec (ops.WriteOp / ReadOp / LoadAllOps / AppendOp)

A record is `[1 byte type][8 bytes lamport BE][16 bytes node][16 bytes file]
[16 bytes line][4 bytes content length BE][content]`.  Files are byte lists;
`AppendOp` is an `O_APPEND` write of one record. -/

/-- Big-endian encoding of `n` into exactly `w` bytes (truncates to
`n % 256 ^ w`, as the fixed-width Go writes do). -/
def natToBytesBE : Nat → Nat → List Nat
  | 0, _ => []
  | w + 1, n => natToBytesBE w (n / 256) ++ [n % 256]

/-- Big-endian decoding of a byte list. -/
def bytesToNat (bs : List Nat) : Nat := bs.foldl (fun acc b => acc * 256 + b) 0

@[simp] theorem length_natToBytesBE (w n : Nat) : (natToBytesBE w n).length = w := by
  induction w generalizing n with
  | zero => rfl
  | succ w ih => simp [natToBytesBE, ih]

theorem bytesToNat_append_singleton (xs : List Nat) (b : Nat) :
    bytesToNat (xs ++ [b]) = bytesToNat xs * 256 + b := by
  simp [bytesToNat, List.foldl_append]

theorem bytesToNat_natToBytesBE (w n : Nat) :
    bytesToNat (natToBytesBE w n) = n % 256 ^ w := by
  induction w generalizing n with
  | zero => simp [natToBytesBE, bytesToNat, Nat.mod_one]
  | succ w ih =>
      rw [natToBytesBE, bytesToNat_append_singleton, ih]
      rw [pow_succ, Nat.mul_comm (256 ^ w) 256, Nat.mod_mul]
      ring

/-- `ops.WriteOp`: the byte record written for one op. -/
def WriteOp (op : Operation) : List Nat :=
  [op.Typ % 256] ++ natToBytesBE 8 op.Lamport ++ natToBytesBE 16 op.NodeID ++
    natToBytesBE 16 op.FileID ++ natToBytesBE 16 op.LineID ++
    natToBytesBE 4 op.Content.length ++ op.Content

theorem length_WriteOp (op : Operation) :
    (WriteOp op).length = 61 + op.Content.length := by
  simp [WriteOp]
  omega

/-- `ops.ReadOp`: read one framed record from the head of `bytes`.  `none`
models the error return on a short read of either the 61-byte header
(`io.ReadFull`) or the content.  Field offsets 0/1/9/25/41/57 are realized by
sequentially consuming the header chunks.  The decoded op has zero values for
the non-persisted `Stream`, `Timestamp` and `Vector` fields. -/
def ReadOp (bytes : List Nat) : Option (Operation × List Nat) :=
  if bytes.length < 61 then none
  else
    let r1 := bytes.drop 1
    let r9 := r1.drop 8
    let r25 := r9.drop 16
    let r41 := r25.drop 16
    let r57 := r41.drop 16
    let contentLen := bytesToNat (r57.take 4)
    let r61 := r57.drop 4
    if bytes.length < 61 + contentLen then none
    else
      some ({ Typ := bytesToNat (bytes.take 1),
              Lamport := bytesToNat (r1.take 8),
              NodeID := bytesToNat (r9.take 16),
              FileID := bytesToNat (r25.take 16),
              LineID := bytesToNat (r41.take 16),
              Content := r61.take contentLen,
              Stream := "", Timestamp := 0, Vector := [] },
            r61.drop contentLen)

/-- The loop of `ops.LoadAllOps`: read records until a failed read, dropping
everything from the failure on.  Expressed with a fuel argument so that the
function reduces computationally; `LoadAllOps` supplies enough fuel that it
never runs out (each successful read consumes at least 61 > 0 bytes). -/
def loadLoop : Nat → List Nat → List Operation
  | 0, _ => []
  | fuel + 1, bytes =>
      match ReadOp bytes with
      | none => []
      | some opRest => opRest.1 :: loadLoop fuel opRest.2

/-- `ops.LoadAllOps` on the contents of a log file. -/
def LoadAllOps (bytes : List Nat) : List Operation := loadLoop (bytes.length + 1) bytes

/-- `ops.AppendOp`: append one framed record to the end of the file. -/
def AppendOp (file : List Nat) (op : Operation) : List Nat := file ++ WriteOp op

/-- The fields of `op` that survive a write/read round-trip (stream, timestamp
and vector are not persisted and come back as zero values). -/
def persistedFields (op : Operation) : Operation :=
  { op with Stream := "", Timestamp := 0, Vector := [] }

/-- Range constraints under which the fixed-width framing is lossless: the Go
field types are `byte`, `uint64`, three 16-byte arrays, and a `uint32` content
length over actual bytes. -/
def ValidOp (op : Operation) : Prop :=
  op.Typ < 256 ∧ op.Lamport < 2 ^ 64 ∧ op.NodeID < 2 ^ 128 ∧ op.FileID < 2 ^ 128 ∧
    op.LineID < 2 ^ 128 ∧ op.Content.length < 2 ^ 32 ∧ ∀ b ∈ op.Content, b < 256

instance : DecidablePred ValidOp := fun op => by unfold ValidOp; infer_instance

theorem ReadOp_WriteOp (op : Operation) (rest : List Nat) (h : ValidOp op) :
    ReadOp (WriteOp op ++ rest) = some (persistedFields op, rest) := by
  obtain ⟨ht, hl, hn, hf, hli, hcl, -⟩ := h
  have hlen : (WriteOp op ++ rest).length = 61 + op.Content.length + rest.length := by
    simp [length_WriteOp]
  have e0 : WriteOp op ++ rest =
      [op.Typ % 256] ++ (natToBytesBE 8 op.Lamport ++ (natToBytesBE 16 op.NodeID ++
        (natToBytesBE 16 op.FileID ++ (natToBytesBE 16 op.LineID ++
          (natToBytesBE 4 op.Content.length ++ (op.Content ++ rest)))))) := by
    simp [WriteOp]
  have t0 : (WriteOp op ++ rest).take 1 = [op.Typ % 256] := by
    rw [e0]; exact List.take_left' rfl
  have d0 : (WriteOp op ++ rest).drop 1 = natToBytesBE 8 op.Lamport ++ (natToBytesBE 16 op.NodeID ++
      (natToBytesBE 16 op.FileID ++ (natToBytesBE 16 op.LineID ++
        (natToBytesBE 4 op.Content.length ++ (op.Content ++ rest))))) := by
    rw [e0]; exact List.drop_left' rfl
  have hclen : bytesToNat (natToBytesBE 4 op.Content.length) = op.Content.length := by
    rw [bytesToNat_natToBytesBE]
    exact Nat.mod_eq_of_lt hcl
  have h61 : ¬ ((WriteOp op ++ rest).length < 61) := by omega
  have h61c : ¬ ((WriteOp op ++ rest).length < 61 + op.Content.length) := by omega
  unfold ReadOp
  rw [if_neg h61, t0, d0]
  simp only []
  rw [List.take_left' (by simp), List.drop_left' (by simp)]
  rw [List.take_left' (by simp), List.drop_left' (by simp)]
  rw [List.take_left' (by simp), List.drop_left' (by simp)]
  rw [List.take_left' (by simp), List.drop_left' (by simp)]
  rw [List.take_left' (by simp), List.drop_left' (by simp)]
  rw [hclen]
  rw [List.take_left' rfl, List.drop_left' rfl]
  rw [if_neg h61c]
  have htyp : bytesToNat [op.Typ % 256] = op.Typ := by
    simp [bytesToNat]
    exact ht
  have hl2 : op.Lamport < 256 ^ 8 := by
    have : (256 : Nat) ^ 8 = 2 ^ 64 := by norm_num
    omega
  have hn2 : op.NodeID < 256 ^ 16 := by
    have : (256 : Nat) ^ 16 = 2 ^ 128 := by norm_num
    omega
  have hf2 : op.FileID < 256 ^ 16 := by
    have : (256 : Nat) ^ 16 = 2 ^ 128 := by norm_num
    omega
  have hli2 : op.LineID < 256 ^ 16 := by
    have : (256 : Nat) ^ 16 = 2 ^ 128 := by norm_num
    omega
  rw [htyp, bytesToNat_natToBytesBE, bytesToNat_natToBytesBE, bytesToNat_natToBytesBE,
    bytesToNat_natToBytesBE, Nat.mod_eq_of_lt hl2, Nat.mod_eq_of_lt hn2, Nat.mod_eq_of_lt hf2,
    Nat.mod_eq_of_lt hli2]
  rfl

theorem ReadOp_some_length {bytes : List Nat} {p : Operation × List Nat}
    (h : ReadOp bytes = some p) : p.2.length + 61 ≤ bytes.length := by
  unfold ReadOp at h
  split at h
  · cases h
  · simp only [] at h
    split at h
    · cases h
    · rename_i h1 h2
      cases h
      simp [List.length_drop]
      omega

/-- The fuel never matters as long as it exceeds the input length (each
successful read consumes at least 61 bytes). -/
theorem loadLoop_congr : ∀ (f1 f2 : Nat) (bytes : List Nat),
    bytes.length < f1 → bytes.length < f2 → loadLoop f1 bytes = loadLoop f2 bytes := by
  intro f1
  induction f1 with
  | zero => intro f2 bytes h1 h2; omega
  | succ g ih =>
      intro f2 bytes h1 h2
      cases f2 with
      | zero => omega
      | succ k =>
          show loadLoop (g + 1) bytes = loadLoop (k + 1) bytes
          unfold loadLoop
          cases hR : ReadOp bytes with
          | none => rfl
          | some p =>
              have hlt := ReadOp_some_length hR
              have := ih k p.2 (by omega) (by omega)
              simp [this]

theorem LoadAllOps_of_ReadOp_none {bytes : List Nat} (h : ReadOp bytes = none) :
    LoadAllOps bytes = [] := by
  unfold LoadAllOps loadLoop
  rw [h]

theorem loadLoop_succ (fuel : Nat) (bytes : List Nat) :
    loadLoop (fuel + 1) bytes =
      match ReadOp bytes with
      | none => []
      | some opRest => opRest.1 :: loadLoop fuel opRest.2 := rfl

theorem LoadAllOps_cons (o : Operation) (rest : List Nat) (h : ValidOp o) :
    LoadAllOps (WriteOp o ++ rest) = persistedFields o :: LoadAllOps rest := by
  unfold LoadAllOps
  rw [loadLoop_succ, ReadOp_WriteOp o rest h]
  have hlen : rest.length < (WriteOp o ++ rest).length := by
    simp [length_WriteOp]
  simp only []
  rw [loadLoop_congr ((WriteOp o ++ rest).length) (rest.length + 1) rest hlen (by omega)]

/-- The byte contents of a log file produced by a sequence of appends. -/
def encodeAll : List Operation → List Nat
  | [] => []
  | o :: t => WriteOp o ++ encodeAll t

theorem LoadAllOps_encodeAll_append (ops : List Operation) (tail : List Nat)
    (hv : ∀ q ∈ ops, ValidOp q) :
    LoadAllOps (encodeAll ops ++ tail) = ops.map persistedFields ++ LoadAllOps tail := by
  induction ops with
  | nil => simp [encodeAll]
  | cons o t ih =>
      have ho : ValidOp o := hv o (by simp)
      have ht : ∀ q ∈ t, ValidOp q := fun q hq => hv q (by simp [hq])
      show LoadAllOps ((WriteOp o ++ encodeAll t) ++ tail) = _
      rw [List.append_assoc, LoadAllOps_cons o _ ho, ih ht]
      rfl

/-- C4: appending one op to a well-formed log and re-reading observes the
appended op exactly once, after all previously stored ops, with the persisted
fields (type, lamport, node, file, line, content) equal to the original;
stream, timestamp and vector are not round-tripped. -/
theorem C4_append_load_roundtrip (ops : List Operation) (o : Operation)
    (hv : ∀ q ∈ ops, ValidOp q) (ho : ValidOp o) :
    LoadAllOps (AppendOp (encodeAll ops) o) = ops.map persistedFields ++ [persistedFields o] := by
  show LoadAllOps (encodeAll ops ++ WriteOp o) = _
  rw [LoadAllOps_encodeAll_append ops _ hv]
  have h2 : LoadAllOps (WriteOp o) = [persistedFields o] := by
    have h3 : WriteOp o ++ [] = WriteOp o := by simp
    rw [← h3, LoadAllOps_cons o [] ho]
    rfl
  rw [h2]

/-- A concrete valid op used by the codec witnesses. -/
def opA : Operation :=
  { Typ := 0, Lamport := 1, NodeID := 2, FileID := 3, LineID := 4
    Content := [104, 105], Stream := "main", Timestamp := 5, Vector := [1] }

/-- A second concrete valid op used by the codec witnesses. -/
def opB : Operation :=
  { Typ := 2, Lamport := 6, NodeID := 7, FileID := 3, LineID := 4
    Content := [], Stream := "main", Timestamp := 8, Vector := [2] }

/-- C4 witness: the round-trip at a concrete one-op log and concrete append. -/
theorem C4_append_load_roundtrip_witness :
    LoadAllOps (AppendOp (encodeAll [opA]) opB) =
      [persistedFields opA, persistedFields opB] :=
  C4_append_load_roundtrip [opA] opB
    (by intro q hq; simp at hq; subst hq; decide) (by decide)

theorem ReadOp_take_none (p : Operation) (k : Nat) (hp : ValidOp p)
    (hk : k < (WriteOp p).length) :
    ReadOp ((WriteOp p).take k) = none := by
  obtain ⟨-, -, -, -, -, hcl, -⟩ := hp
  have hlenW : (WriteOp p).length = 61 + p.Content.length := length_WriteOp p
  have hlent : ((WriteOp p).take k).length = k := by
    simp [List.length_take]
    omega
  by_cases h61 : k < 61
  · unfold ReadOp
    rw [if_pos (by omega)]
  · have d57 : (WriteOp p).drop 57 = natToBytesBE 4 p.Content.length ++ p.Content := by
      rw [WriteOp]
      rw [show [p.Typ % 256] ++ natToBytesBE 8 p.Lamport ++ natToBytesBE 16 p.NodeID ++
            natToBytesBE 16 p.FileID ++ natToBytesBE 16 p.LineID ++
            natToBytesBE 4 p.Content.length ++ p.Content =
          ([p.Typ % 256] ++ natToBytesBE 8 p.Lamport ++ natToBytesBE 16 p.NodeID ++
            natToBytesBE 16 p.FileID ++ natToBytesBE 16 p.LineID) ++
          (natToBytesBE 4 p.Content.length ++ p.Content) by simp]
      exact List.drop_left' (by simp)
    have hchain : ((((((WriteOp p).take k).drop 1).drop 8).drop 16).drop 16).drop 16 =
        ((WriteOp p).drop 57).take (k - 57) := by
      simp [List.drop_drop, List.drop_take]
      omega
    have htake4 : (((WriteOp p).drop 57).take (k - 57)).take 4 =
        natToBytesBE 4 p.Content.length := by
      rw [List.take_take, Nat.min_def, if_pos (by omega), d57]
      exact List.take_left' (by simp)
    unfold ReadOp
    rw [if_neg (by omega)]
    simp only []
    rw [hchain, htake4]
    rw [bytesToNat_natToBytesBE, Nat.mod_eq_of_lt (by
      have : (256 : Nat) ^ 4 = 2 ^ 32 := by norm_num
      omega)]
    rw [if_pos (by omega)]

/-- C5: a log consisting of fully framed records followed by a torn tail (a
strict prefix of one more record) loads exactly the fully written ops in write
order; nothing of the partial tail is returned and no error is raised. -/
theorem C5_torn_tail (ops : List Operation) (p : Operation) (k : Nat)
    (hv : ∀ q ∈ ops, ValidOp q) (hp : ValidOp p) (hk : k < (WriteOp p).length) :
    LoadAllOps (encodeAll ops ++ (WriteOp p).take k) = ops.map persistedFields := by
  rw [LoadAllOps_encodeAll_append ops _ hv,
    LoadAllOps_of_ReadOp_none (ReadOp_take_none p k hp hk)]
  simp

/-- C5 witness: one full record followed by 30 bytes of a torn header loads
only the full record (scenario S6). -/
theorem C5_torn_tail_witness :
    LoadAllOps (encodeAll [opA] ++ (WriteOp opB).take 30) = [persistedFields opA] :=
  C5_torn_tail [opA] opB 30
    (by intro q hq; simp at hq; subst hq; decide) (by decide) (by decide)

/-! ## Compactor (internal/crdt/compact/compact.go)

`compact.Config` durations are nanoseconds; `now.Sub(ts)` is modelled by `Nat`
subtraction (which agrees with Go on the non-negative differences that arise,
and makes a future timestamp compare as age 0, matching `age > TTL = false`).
Go map iteration order over `lineOps` is arbitrary; the model visits LineIDs in
first-occurrence order, and the final `sortOps` canonicalizes the result up to
`(lamport, node)` ties exactly as in any Go execution. -/

structure CompactConfig where
  MaxOps : Nat
  TombstoneTTL : Nat
  MinOpsToKeep : Nat
  CompactionInterval : Nat
  deriving Repr, DecidableEq

/-- `compact.DefaultConfig`. -/
def DefaultConfig : CompactConfig :=
  { MaxOps := 10000, TombstoneTTL := 7 * 24 * 3600 * 1000000000
    MinOpsToKeep := 1000, CompactionInterval := 3600 * 1000000000 }

/-- `compact.sortOps`: sort by `Operation.LessThan`. -/
def sortOps (ops : List Operation) : List Operation :=
  insertionSortB (fun a b => a.LessThan b) ops

/-- LineIDs of `ops` in first-occurrence order (the iteration domain of the
`lineOps` map). -/
def distinctLineIDs (ops : List Operation) : List Nat :=
  ops.foldl (fun acc op => if acc.contains op.LineID then acc else acc ++ [op.LineID]) []

/-- `compact.CompactOperations`: below the `MaxOps` threshold return the input
unchanged; otherwise keep only the last op (in `LessThan` order) of each
line's history, dropping it entirely when it is a Delete older than
`TombstoneTTL`; re-sort; if fewer than `MinOpsToKeep` remain, return the first
`MinOpsToKeep` input ops instead (`ops[:MinOpsToKeep]`; Go would panic when
`MinOpsToKeep` exceeds `len(ops)` — modelled as a truncating take, a case no
claim exercises). -/
def CompactOperations (ops : List Operation) (cfg : CompactConfig) (now : Nat) :
    List Operation :=
  if ops.length < cfg.MaxOps then ops
  else
    let compacted := (distinctLineIDs ops).filterMap (fun lid =>
      let lineHistory := sortOps (ops.filter (fun op => decide (op.LineID = lid)))
      match lineHistory.getLast? with
      | none => none
      | some finalOp =>
          if finalOp.Typ = OpDelete ∧ now - finalOp.Timestamp > cfg.TombstoneTTL then none
          else some finalOp)
    let compacted := sortOps compacted
    if compacted.length < cfg.MinOpsToKeep then ops.take cfg.MinOpsToKeep
    else compacted

/-- `compact.CompactRGA`: rebuild a fresh RGA from the compacted op list,
skipping ops whose `Apply` fails (the source logs and continues). -/
def CompactRGA (r : RGA) (cfg : CompactConfig) (now : Nat) : RGA :=
  buildRGA (CompactOperations r.GetOperations cfg now)

/-- The Insert underlying the C1 failing input: line 1 gets content "a". -/
def c1Ins : Operation :=
  { baseOp with Typ := 0, Lamport := 1, NodeID := 1, FileID := 1, LineID := 1, Content := [97] }

/-- The Update underlying the C1 failing input: line 1 becomes "b". -/
def c1Upd : Operation :=
  { baseOp with Typ := 1, Lamport := 2, NodeID := 1, FileID := 1, LineID := 1, Content := [98] }

/-- The compaction configuration of the C1 failing input: compaction active
(`MaxOps = 2`), long TTL, no retention floor. -/
def c1Cfg : CompactConfig :=
  { MaxOps := 2, TombstoneTTL := 1000000, MinOpsToKeep := 0, CompactionInterval := 0 }

/-- C1 is a code bug: with ops `[Insert(L,"a",1), Update(L,"b",2)]` and an
active compaction config, `CompactOperations` keeps only the Update (the
highest op of the line), which cannot be applied to a fresh RGA (unknown
line) and is skipped by `CompactRGA`; the document materializes as `["b"]`
before compaction and as `[]` after, violating byte-for-byte preservation. -/
theorem C1_compaction_loses_updated_line :
    CompactOperations [c1Ins, c1Upd] c1Cfg 0 = [c1Upd] ∧
    (buildRGA [c1Ins, c1Upd]).Materialize = [[98]] ∧
    (buildRGA (CompactOperations [c1Ins, c1Upd] c1Cfg 0)).Materialize = [] := by
  decide

/-! ## Ingest differ (ops.processFile, normal-file branch)

File contents are byte lists.  `strings.ReplaceAll(s, "\r\n", "\n")` and
`strings.Split(s, "\n")` operate on single-byte separators, so the byte-level
model is exact. -/

/-- Left-to-right non-overlapping replacement of CRLF by LF. -/
def replaceCRLF : List Nat → List Nat
  | 13 :: 10 :: rest => 10 :: replaceCRLF rest
  | b :: rest => b :: replaceCRLF rest
  | [] => []

/-- `strings.Split` semantics on one separator byte: `n` separators yield
`n + 1` chunks; the empty input yields one empty chunk. -/
def splitOnByte (sep : Nat) : List Nat → List (List Nat)
  | [] => [[]]
  | b :: rest =>
      if b = sep then [] :: splitOnByte sep rest
      else
        match splitOnByte sep rest with
        | [] => [[b]]
        | h :: t => (b :: h) :: t

/-- `diskLines` in `processFile`: normalize line endings, then split on LF. -/
def diskLinesOf (data : List Nat) : List (List Nat) := splitOnByte 10 (replaceCRLF data)

/-- The length of the common prefix of two line sequences (the first Go loop,
bounded by the shorter length automatically). -/
def commonPrefixLen : List (List Nat) → List (List Nat) → Nat
  | x :: xs, y :: ys => if x = y then commonPrefixLen xs ys + 1 else 0
  | _, _ => 0

/-- The diff-and-emit portion of `ops.processFile` for a normal-sized tracked
file, after the current document has been replayed: `docLines` and `lineIDs`
come from `doc.Materialize()` and `doc.GetLineIDs()`, `data` is the on-disk
content.  `lam` and `node` are the `lamport`/`nodeID` drawn at entry;
`ts` stands for the per-op `time.Now()`; `freshIns j` supplies the
`uuid.New()` node and line ids of the j-th insert.  Returns the `changed`
flag and the ops appended to the log, in emission order (updates, deletes,
inserts).  Note the quirks kept from the source: the insert loop advances a
second lamport counter, and insert ops carry zero `Stream`/`Timestamp`. -/
def processFileDiff (docLines : List (List Nat)) (lineIDs : List Nat)
    (data : List Nat) (lam : Nat) (node : Nat) (fid : Nat) (stream : String)
    (ts : Nat) (freshIns : Nat → Nat × Nat) : Bool × List Operation :=
  let diskLines := diskLinesOf data
  if docLines = diskLines then (false, [])
  else
    let minLen := min docLines.length diskLines.length
    let prefixLen := commonPrefixLen docLines diskLines
    let suffixLen :=
      min (commonPrefixLen docLines.reverse diskLines.reverse) (minLen - prefixLen)
    let docMid := (docLines.drop prefixLen).take (docLines.length - suffixLen - prefixLen)
    let diskMid := (diskLines.drop prefixLen).take (diskLines.length - suffixLen - prefixLen)
    let m := min docMid.length diskMid.length
    let updates := (List.range m).filterMap (fun i =>
      if docMid.getD i [] ≠ diskMid.getD i [] then
        some { Typ := OpUpdate, Lamport := lam + i, NodeID := node, FileID := fid
               LineID := lineIDs.getD (prefixLen + i) 0, Content := diskMid.getD i []
               Stream := stream, Timestamp := ts, Vector := [] }
      else none)
    let deletes := (List.range' diskMid.length (docMid.length - diskMid.length)).map (fun j =>
      { Typ := OpDelete, Lamport := lam + j, NodeID := node, FileID := fid
        LineID := lineIDs.getD (prefixLen + j) 0, Content := []
        Stream := stream, Timestamp := ts, Vector := [] })
    let inserts := (List.range (diskMid.length - m)).map (fun k =>
      let j := m + k
      let fr := freshIns j
      { Typ := OpInsert, Lamport := lam + k + j, NodeID := fr.1, FileID := fid
        LineID := fr.2, Content := diskMid.getD j []
        Stream := "", Timestamp := 0, Vector := [] })
    let emitted := updates ++ deletes ++ inserts
    (!emitted.isEmpty, emitted)

/-- C7, counterexample: the content "a\n" splits into `["a", ""]` — the final
newline DOES produce a trailing empty line — so a document materializing as
`["a"]` is not reported unchanged: ingest emits an Insert of the empty line
and reports the file changed. -/
theorem C7_trailing_newline_not_clean :
    diskLinesOf [97, 10] = [[97], []] ∧
    (processFileDiff [[97]] [5] [97, 10] 100 1 1 "main" 0 (fun j => (50 + j, 60 + j))).1 = true ∧
    (processFileDiff [[97]] [5] [97, 10] 100 1 1 "main" 0 (fun j => (50 + j, 60 + j))).2 =
      [{ Typ := OpInsert, Lamport := 100, NodeID := 50, FileID := 1, LineID := 60
         Content := [], Stream := "", Timestamp := 0, Vector := [] }] := by
  decide

/-- C7, amended: the split keeps the trailing empty line that a final newline
produces (Go `strings.Split`); ingesting a file whose split line sequence —
including any trailing empty line — equals the materialized document emits no
ops and reports the file unchanged. -/
theorem C7_equal_lines_unchanged (docLines : List (List Nat)) (lineIDs : List Nat)
    (data : List Nat) (lam node fid : Nat) (stream : String) (ts : Nat)
    (freshIns : Nat → Nat × Nat) (h : docLines = diskLinesOf data) :
    processFileDiff docLines lineIDs data lam node fid stream ts freshIns = (false, []) := by
  unfold processFileDiff
  rw [if_pos h]

/-- C7 witness: the amended theorem at the concrete content "a\n" against the
document `["a", ""]`. -/
theorem C7_equal_lines_unchanged_witness :
    processFileDiff [[97], []] [5, 6] [97, 10] 100 1 1 "main" 0
      (fun j => (50 + j, 60 + j)) = (false, []) :=
  C7_equal_lines_unchanged [[97], []] [5, 6] [97, 10] 100 1 1 "main" 0
    (fun j => (50 + j, 60 + j)) (by decide)

/-! ## Commit layer data model (internal/types/commit.go, commits package)

The repo declares the commit structure twice (field `Ops` in one copy,
`Operations` in the other, otherwise identical); the embedding uses one
structure with the field name `Operations`. -/

/-- `types.ExtendedOp`: an op plus the prior content enabling inversion. -/
structure ExtendedOp where
  Op : Operation
  OldContent : List Nat
  deriving Repr, DecidableEq

/-- `types.Commit`.  `Timestamp` is an abstract instant ordered by `<`. -/
structure Commit where
  ID : String
  Stream : String
  Message : String
  AuthorName : String
  AuthorEmail : String
  Timestamp : Nat
  Signature : String
  Operations : List ExtendedOp
  deriving Repr, DecidableEq

/-- Stand-in for Gos `Timestamp.UTC().Format(time.RFC3339)`: an injective
textual rendering of the instant (the exact digits are irrelevant to every
claim; only which fields are rendered matters). -/
def rfc3339UTC (t : Nat) : String := toString t

/-- The byte stream that `types.CommitHashString` feeds to SHA-256 — the one
`signing.SignCommit` and `signing.VerifyCommit` hash and sign: id, stream,
message, author name, author email, and the RFC3339-UTC timestamp, in that
order.  No operation data is written.  The commit hash is the external
SHA-256 primitive applied to this stream, so equal streams give equal hashes
and equal signed messages.  (A second, unused `commits.CommitHashString` in
the repo does fold the ops in; the signing package calls the types one.) -/
def commitHashData (c : Commit) : String :=
  c.ID ++ c.Stream ++ c.Message ++ c.AuthorName ++ c.AuthorEmail ++ rfc3339UTC c.Timestamp

/-- C6, counterexample: two commits that differ only in their operation list
produce the identical hashed byte stream, hence the same SHA-256 and the same
signed hash — refuting the claim that the ops are hashed and that such
commits hash differently. -/
theorem C6_hash_ignores_ops :
    let c1 : Commit := { ID := "id", Stream := "main", Message := "m", AuthorName := "a"
                         AuthorEmail := "e", Timestamp := 1, Signature := ""
                         Operations := [{ Op := baseOp, OldContent := [] }] }
    let c2 : Commit := { c1 with Operations := [] }
    c1.Operations ≠ c2.Operations ∧ commitHashData c1 = commitHashData c2 := by
  constructor
  · decide
  · rfl

/-- C6, amended: the canonical hash that is signed and verified is SHA-256
over the commit id, stream, message, author name, author email and
RFC3339-UTC timestamp only; the operation list never enters the hashed bytes,
so replacing it leaves the signed hash unchanged. -/
theorem C6_hash_over_header_only (c : Commit) (ops2 : List ExtendedOp) :
    commitHashData { c with Operations := ops2 } = commitHashData c := rfl

/-! ## Revert (commits.RevertCommit / invertOps, part of the commits package) -/

/-- `commits.invertOps`.  Fresh `(newLamport(), uuid.New())` pairs for emitted
inverse ops come from `fresh`, indexed by the count of ops emitted so far.
The source iterates the commit ops in FORWARD order, and its `OpDelete` case
is an empty case arm — a Delete is never inverted, even when the preserved
old content is available in `eop.OldContent`. -/
def invertOps (fresh : Nat → Nat × Nat) (eops : List ExtendedOp) : List ExtendedOp :=
  go 0 eops
where
  go (k : Nat) : List ExtendedOp → List ExtendedOp
    | [] => []
    | eop :: rest =>
        let op := eop.Op
        if op.Typ = OpInsert then
          { Op := { Typ := OpDelete, Lamport := (fresh k).1, NodeID := (fresh k).2
                    FileID := op.FileID, LineID := op.LineID, Content := []
                    Stream := "", Timestamp := 0, Vector := [] }
            OldContent := [] } :: go (k + 1) rest
        else if op.Typ = OpDelete then
          go k rest
        else if op.Typ = OpUpdate then
          { Op := { Typ := OpUpdate, Lamport := (fresh k).1, NodeID := (fresh k).2
                    FileID := op.FileID, LineID := op.LineID, Content := eop.OldContent
                    Stream := "", Timestamp := 0, Vector := [] }
            OldContent := op.Content } :: go (k + 1) rest
        else go k rest

/-! ## Repository state and the streams operations (internal/streams/streams.go)

The on-disk layout is a finite map from stream name to a commits directory
(files keyed by commit id, `os.Create` overwrites) and to a per-file op log
(files keyed by FileID, `AppendOp` appends).  Directories are association
lists with unique keys; `lookupD`/`setEntry` are the read and
create-or-overwrite of one file. -/

/-- Association-list read with a default (a missing file or directory reads
as empty). -/
def lookupD {α β : Type} [DecidableEq α] (l : List (α × β)) (k : α) (d : β) : β :=
  match l with
  | [] => d
  | e :: t => if e.1 = k then e.2 else lookupD t k d

/-- Association-list create-or-overwrite. -/
def setEntry {α β : Type} [DecidableEq α] (l : List (α × β)) (k : α) (v : β) :
    List (α × β) :=
  match l with
  | [] => [(k, v)]
  | e :: t => if e.1 = k then (k, v) :: t else e :: setEntry t k v

/-- `commits.SaveCommitFile` (and `saveCommit`) within one commits directory:
the record is written to `<ID>.bin`, overwriting a file of the same name. -/
def saveIn (dir : List Commit) (c : Commit) : List Commit :=
  match dir with
  | [] => [c]
  | x :: t => if x.ID = c.ID then c :: t else x :: saveIn t c

/-- The repository state the streams layer touches: the stream marker list
(in directory order), the per-stream commit directories, and the per-stream,
per-file op logs. -/
structure RepoModel where
  streams : List String
  commits : List (String × List Commit)
  logs : List (String × List (Nat × List Operation))
  deriving Repr, DecidableEq

/-- One `ops.AppendOp` into `.evo/ops/<stream>/<fileID>.bin`. -/
def appendOpLog (st : RepoModel) (stream : String) (op : Operation) : RepoModel :=
  let slogs := lookupD st.logs stream []
  let flog := lookupD slogs op.FileID []
  { st with logs := setEntry st.logs stream (setEntry slogs op.FileID (flog ++ [op])) }

/-- `streams.replicateOps`: append every op of the list into the target
stream log of its file.  There is no dedup of any kind. -/
def replicateOps (st : RepoModel) (stream : String) (eops : List ExtendedOp) : RepoModel :=
  eops.foldl (fun s eop => appendOpLog s stream eop.Op) st

/-- `streams.ListCommits`: read every commit record of the stream directory
and sort by timestamp ascending (`sort.Slice` on `Timestamp.Before`). -/
def ListCommits (st : RepoModel) (stream : String) : List Commit :=
  insertionSortB (fun a b => decide (a.Timestamp < b.Timestamp)) (lookupD st.commits stream [])

/-- Write one commit record into a stream commits directory. -/
def SaveCommitStream (st : RepoModel) (stream : String) (c : Commit) : RepoModel :=
  { st with commits := setEntry st.commits stream (saveIn (lookupD st.commits stream []) c) }

/-- The body of the missing-commit loop of `streams.MergeStreams`: replicate
the ops of the commit into the target log, then store a copy of its record in
the target (same ID, stream field rewritten). -/
def mergeStep (target : String) (s : RepoModel) (mc : Commit) : RepoModel :=
  SaveCommitStream (replicateOps s target mc.Operations) target { mc with Stream := target }

/-- The source commits whose CommitID is absent from the target (the
`missing` list of `streams.MergeStreams`). -/
def mergeMissing (st : RepoModel) (source target : String) : List Commit :=
  (ListCommits st source).filter
    (fun c => decide (c.ID ∉ (ListCommits st target).map (fun c2 => c2.ID)))

/-- `streams.MergeStreams`: run the merge step over every missing commit. -/
def MergeStreams (st : RepoModel) (source target : String) : RepoModel :=
  (mergeMissing st source target).foldl (mergeStep target) st

/-- The commit scan of `streams.CherryPick`: walk the streams in directory
order, their commits in `ListCommits` order, and stop at the first matching
CommitID. -/
def findCommitInStreams (st : RepoModel) (commitID : String) : Option Commit :=
  ((st.streams.map (fun s => ListCommits st s)).flatten).find? (fun c => decide (c.ID = commitID))

/-- `streams.CherryPick`: locate the commit anywhere, replicate its ops into
the target log (no dedup), then store a new commit record under the fresh
`newID` (a `uuid.New()` at each call) with the message prefixed
"[cherry-pick] ".  `none` is the commit-not-found error. -/
def CherryPick (st : RepoModel) (commitID target newID : String) : Option RepoModel :=
  match findCommitInStreams st commitID with
  | none => none
  | some found =>
      let st1 := replicateOps st target found.Operations
      some (SaveCommitStream st1 target
        { found with
            ID := newID
            Stream := target
            Message := "[cherry-pick] " ++ found.Message })

/-- `streams.MergeFilter`: FileIDs keyed by the numeric id behind
`FileID.String()`. -/
structure MergeFilter where
  FileIDs : List Nat
  OpTypes : List OpType
  deriving Repr, DecidableEq

/-- `streams.shouldIncludeOp`: an op passes when each non-empty filter list
contains its field (both empty accepts everything). -/
def shouldIncludeOp (eop : ExtendedOp) (f : MergeFilter) : Bool :=
  (f.FileIDs.isEmpty || f.FileIDs.contains eop.Op.FileID) &&
    (f.OpTypes.isEmpty || f.OpTypes.contains eop.Op.Typ)

/-- `streams.PartialMerge`.  With an entirely empty filter it collapses ALL
source ops (streams rewritten to the target) into a single commit carrying
the last source commit id, timestamp and "[merge] "-prefixed message, saved
and replicated unconditionally; with a non-empty filter it saves one
"[merge] " commit per source commit having at least one surviving op.  The
`tgtMap` the source builds is never consulted, so no CommitID dedup happens
on either path. -/
def PartialMerge (st : RepoModel) (source target : String) (f : MergeFilter) : RepoModel :=
  let srcCommits := ListCommits st source
  if f.FileIDs.isEmpty ∧ f.OpTypes.isEmpty then
    let allOps := (srcCommits.map (fun sc =>
      sc.Operations.map (fun eop => { eop with Op := { eop.Op with Stream := target } }))).flatten
    match srcCommits.getLast? with
    | none => st
    | some lastCommit =>
        if allOps.isEmpty then st
        else
          let newCommit : Commit :=
            { ID := lastCommit.ID, Stream := target
              Message := "[merge] " ++ lastCommit.Message
              AuthorName := "", AuthorEmail := "", Timestamp := lastCommit.Timestamp
              Signature := "", Operations := allOps }
          replicateOps (SaveCommitStream st target newCommit) target allOps
  else
    srcCommits.foldl (fun s sc =>
      let filteredOps := (sc.Operations.filter (fun eop => shouldIncludeOp eop f)).map
        (fun eop => { eop with Op := { eop.Op with Stream := target } })
      if filteredOps.isEmpty then s
      else
        let newCommit : Commit :=
          { ID := sc.ID, Stream := target, Message := "[merge] " ++ sc.Message
            AuthorName := "", AuthorEmail := "", Timestamp := sc.Timestamp
            Signature := "", Operations := filteredOps }
        replicateOps (SaveCommitStream s target newCommit) target filteredOps) st

/-- `commits.RevertCommit`: find the commit in the stream, invert its ops
(`invertOps`), append the inverse ops to the stream op logs, then save a new
commit record with the fresh `newID` and the inverse ops. -/
def RevertCommit (st : RepoModel) (stream commitID newID : String)
    (fresh : Nat → Nat × Nat) (now : Nat) : Option RepoModel :=
  match (ListCommits st stream).find? (fun c => decide (c.ID = commitID)) with
  | none => none
  | some target =>
      let invOps := invertOps fresh target.Operations
      let st1 := invOps.foldl (fun s eop => appendOpLog s stream eop.Op) st
      some (SaveCommitStream st1 stream
        { ID := newID, Stream := stream
          Message := "Revert of " ++ commitID ++ ": " ++ target.Message
          AuthorName := "Reverter", AuthorEmail := "revert@evo"
          Timestamp := now, Signature := "", Operations := invOps })

/-! ## Claims about the commit layer -/

/-- The Insert of scenario S3 (line 1, content "a", lamport 1). -/
def s3Ins : Operation :=
  { baseOp with
      Typ := 0
      Lamport := 1
      NodeID := 1
      FileID := 1
      LineID := 1
      Content := [97]
      Stream := "main"
      Timestamp := 1 }

/-- The Delete of scenario S3 (line 1, lamport 2). -/
def s3Del : Operation :=
  { baseOp with
      Typ := 2
      Lamport := 2
      NodeID := 1
      FileID := 1
      LineID := 1
      Stream := "main"
      Timestamp := 2 }

/-- Commit C1 of scenario S3. -/
def s3C1 : Commit :=
  { ID := "c1", Stream := "main", Message := "insert a", AuthorName := "u"
    AuthorEmail := "e", Timestamp := 1, Signature := ""
    Operations := [{ Op := s3Ins, OldContent := [] }] }

/-- Commit C2 of scenario S3: the Delete, with the preserved old content "a". -/
def s3C2 : Commit :=
  { ID := "c2", Stream := "main", Message := "delete a", AuthorName := "u"
    AuthorEmail := "e", Timestamp := 2, Signature := ""
    Operations := [{ Op := s3Del, OldContent := [97] }] }

/-- The repository of scenario S3 just before the revert. -/
def s3Repo : RepoModel :=
  { streams := ["main"]
    commits := [("main", [s3C1, s3C2])]
    logs := [("main", [(1, [s3Ins, s3Del])])] }

/-- C2 is a code bug: `invertOps` never inverts a Delete — its `OpDelete`
case is empty even when the preserved old content is present — so reverting
the delete-commit C2 of scenario S3 emits no ops at all: the op log is
unchanged and the document still materializes as `[]` instead of `["a"]`.
This contradicts the inversion table, invariant 5, and the repo test
`TestRevertCommit/Revert_Delete`, which expects an Insert carrying the
deleted content. -/
theorem C2_revert_drops_delete_inverses :
    invertOps (fun k => (100 + k, 200 + k)) [{ Op := s3Del, OldContent := [97] }] = [] ∧
    (RevertCommit s3Repo "main" "c2" "r1" (fun k => (100 + k, 200 + k)) 3).map
        (fun st => (lookupD (lookupD st.logs "main" []) 1 [],
          (buildRGA (lookupD (lookupD st.logs "main" []) 1 [])).Materialize)) =
      some ([s3Ins, s3Del], []) := by
  decide

/-- The op of the cherry-picked commit in the C3 counterexample. -/
def cpOp : Operation :=
  { baseOp with
      Typ := 0
      Lamport := 1
      NodeID := 1
      FileID := 9
      LineID := 3
      Content := [120]
      Stream := "feature"
      Timestamp := 1 }

/-- The cherry-picked commit of the C3 counterexample. -/
def cpCommit : Commit :=
  { ID := "cf", Stream := "feature", Message := "feat", AuthorName := "u"
    AuthorEmail := "e", Timestamp := 1, Signature := ""
    Operations := [{ Op := cpOp, OldContent := [] }] }

/-- The repository of the C3 counterexample. -/
def cpRepo : RepoModel :=
  { streams := ["feature", "main"]
    commits := [("feature", [cpCommit])]
    logs := [("feature", [(9, [cpOp])])] }

/-- C3, counterexample: running `CherryPick` a second time (with the fresh
commit id Go draws at each call) appends the commit op to the target log
again — the log for file 9 grows from one to two copies — and writes a second
commit record; `replicateOps` performs no op-key dedup. -/
theorem C3_cherrypick_not_idempotent :
    ((CherryPick cpRepo "cf" "main" "n1").bind
        (fun st1 => CherryPick st1 "cf" "main" "n2")).map
        (fun st2 => ((lookupD (lookupD st2.logs "main" []) 9 []).length,
          (lookupD st2.commits "main" []).length)) = some (2, 2) ∧
    (CherryPick cpRepo "cf" "main" "n1").map
        (fun st1 => ((lookupD (lookupD st1.logs "main" []) 9 []).length,
          (lookupD st1.commits "main" []).length)) = some (1, 1) := by
  decide

theorem lookupD_setEntry_self {α β : Type} [DecidableEq α]
    (l : List (α × β)) (k : α) (v d : β) :
    lookupD (setEntry l k v) k d = v := by
  induction l with
  | nil => simp [setEntry, lookupD]
  | cons e t ih =>
      unfold setEntry
      split
      · simp [lookupD]
      · rename_i h
        unfold lookupD
        rw [if_neg h]
        exact ih

theorem lookupD_setEntry_ne {α β : Type} [DecidableEq α]
    (l : List (α × β)) (k k2 : α) (v : β) (d : β) (h : k2 ≠ k) :
    lookupD (setEntry l k v) k2 d = lookupD l k2 d := by
  induction l with
  | nil =>
      unfold setEntry
      unfold lookupD
      rw [if_neg (fun hh => h hh.symm)]
      rfl
  | cons e t ih =>
      unfold setEntry
      split
      · rename_i he
        unfold lookupD
        rw [if_neg (fun hh => h hh.symm), he, if_neg (fun hh => h hh.symm)]
      · rename_i he
        unfold lookupD
        split
        · rfl
        · exact ih

/-- Commit IDs present in the commits directory of a stream. -/
def idsIn (st : RepoModel) (s : String) : List String :=
  (lookupD st.commits s []).map (fun c => c.ID)

theorem mem_ids_saveIn (dir : List Commit) (c : Commit) (x : String) :
    x ∈ (saveIn dir c).map (fun q => q.ID) ↔ x ∈ dir.map (fun q => q.ID) ∨ x = c.ID := by
  induction dir with
  | nil => simp [saveIn]
  | cons d t ih =>
      unfold saveIn
      split
      · rename_i hd
        simp only [List.map_cons, List.mem_cons, hd]
        tauto
      · simp only [List.map_cons, List.mem_cons]
        rw [ih]
        tauto

theorem commits_appendOpLog (st : RepoModel) (s : String) (op : Operation) :
    (appendOpLog st s op).commits = st.commits := rfl

theorem commits_replicateOps (eops : List ExtendedOp) (s : String) :
    ∀ st : RepoModel, (replicateOps st s eops).commits = st.commits := by
  induction eops with
  | nil => intro st; rfl
  | cons e t ih =>
      intro st
      show (replicateOps (appendOpLog st s e.Op) s t).commits = st.commits
      rw [ih, commits_appendOpLog]

theorem idsIn_SaveCommitStream_self (st : RepoModel) (s : String) (c : Commit) (x : String) :
    x ∈ idsIn (SaveCommitStream st s c) s ↔ x ∈ idsIn st s ∨ x = c.ID := by
  unfold idsIn SaveCommitStream
  simp only []
  rw [lookupD_setEntry_self]
  exact mem_ids_saveIn _ c x

theorem commits_SaveCommitStream_ne (st : RepoModel) (s s2 : String) (c : Commit)
    (h : s2 ≠ s) :
    lookupD (SaveCommitStream st s c).commits s2 [] = lookupD st.commits s2 [] := by
  unfold SaveCommitStream
  exact lookupD_setEntry_ne _ _ _ _ _ h

theorem commits_mergeFold_ne (missing : List Commit) (target s2 : String) (h : s2 ≠ target) :
    ∀ st : RepoModel,
      lookupD ((missing.foldl (mergeStep target) st).commits) s2 [] = lookupD st.commits s2 [] := by
  induction missing with
  | nil => intro st; rfl
  | cons mc t ih =>
      intro st
      show lookupD ((t.foldl (mergeStep target) (mergeStep target st mc)).commits) s2 [] = _
      rw [ih]
      unfold mergeStep
      rw [commits_SaveCommitStream_ne _ _ _ _ h]
      have := commits_replicateOps mc.Operations target st
      rw [this]

theorem ids_mergeFold_mono (missing : List Commit) (target : String) :
    ∀ (st : RepoModel) (x : String), x ∈ idsIn st target →
      x ∈ idsIn (missing.foldl (mergeStep target) st) target := by
  induction missing with
  | nil => intro st x hx; exact hx
  | cons mc t ih =>
      intro st x hx
      show x ∈ idsIn (t.foldl (mergeStep target) (mergeStep target st mc)) target
      apply ih
      unfold mergeStep
      rw [idsIn_SaveCommitStream_self]
      left
      unfold idsIn
      rw [commits_replicateOps]
      exact hx

theorem ids_mergeFold_mem (missing : List Commit) (target : String) :
    ∀ (st : RepoModel) (mc : Commit), mc ∈ missing →
      mc.ID ∈ idsIn (missing.foldl (mergeStep target) st) target := by
  induction missing with
  | nil => intro st mc h; cases h
  | cons m t ih =>
      intro st mc hmc
      show mc.ID ∈ idsIn (t.foldl (mergeStep target) (mergeStep target st m)) target
      rcases List.mem_cons.mp hmc with h | h
      · subst h
        apply ids_mergeFold_mono
        unfold mergeStep
        rw [idsIn_SaveCommitStream_self]
        right
        rfl
      · exact ih _ mc h

theorem mem_ListCommits (st : RepoModel) (s : String) (c : Commit) :
    c ∈ ListCommits st s ↔ c ∈ lookupD st.commits s [] := by
  unfold ListCommits
  exact mem_insertionSortB _ c _

theorem mem_map_ListCommits (st : RepoModel) (s : String) (x : String) :
    x ∈ (ListCommits st s).map (fun c => c.ID) ↔ x ∈ idsIn st s := by
  unfold idsIn
  simp only [List.mem_map]
  constructor
  · rintro ⟨c, hc, rfl⟩
    exact ⟨c, (mem_ListCommits st s c).mp hc, rfl⟩
  · rintro ⟨c, hc, rfl⟩
    exact ⟨c, (mem_ListCommits st s c).mpr hc, rfl⟩

/-- Merging a stream into itself is a no-op (every commit id is already
present). -/
theorem MergeStreams_self (st : RepoModel) (s : String) : MergeStreams st s s = st := by
  unfold MergeStreams
  have h : mergeMissing st s s = [] := by
    unfold mergeMissing
    rw [List.filter_eq_nil_iff]
    intro c hc
    simp only [decide_eq_true_eq]
    intro hcon
    exact hcon (List.mem_map_of_mem _ hc)
  rw [h]
  rfl

/-- C3, amended: full merge is idempotent — a second `MergeStreams` run finds
no missing commit (every source CommitID is already in the target after the
first run) and leaves the repository exactly as it was; `CherryPick` is not
idempotent (there is no op-key dedup in `replicateOps`, and each run writes a
new commit record under a fresh CommitID). -/
theorem C3_merge_idempotent (st : RepoModel) (source target : String) :
    MergeStreams (MergeStreams st source target) source target =
      MergeStreams st source target := by
  by_cases hst : source = target
  · subst hst
    rw [MergeStreams_self, MergeStreams_self]
  · have hmissing : mergeMissing (MergeStreams st source target) source target = [] := by
      unfold mergeMissing
      rw [List.filter_eq_nil_iff]
      intro c hc
      simp only [decide_eq_true_eq]
      intro hcon
      apply hcon
      rw [mem_map_ListCommits]
      have hcsrc : c ∈ lookupD st.commits source [] := by
        have h1 := (mem_ListCommits _ source c).mp hc
        rwa [show (MergeStreams st source target).commits =
            ((mergeMissing st source target).foldl (mergeStep target) st).commits from rfl,
          commits_mergeFold_ne _ _ _ hst] at h1
      by_cases hmem : c.ID ∈ idsIn st target
      · exact ids_mergeFold_mono _ _ _ _ hmem
      · have hcm : c ∈ mergeMissing st source target := by
          unfold mergeMissing
          rw [List.mem_filter]
          refine ⟨(mem_ListCommits st source c).mpr hcsrc, ?_⟩
          simp only [decide_eq_true_eq]
          intro hcon2
          exact hmem ((mem_map_ListCommits st target c.ID).mp hcon2)
        exact ids_mergeFold_mem _ _ _ _ hcm
    show (mergeMissing (MergeStreams st source target) source target).foldl _ _ = _
    rw [hmissing]
    rfl

/-- First source op of the C8 counterexample (file 1). -/
def pmOp1 : Operation :=
  { baseOp with
      Typ := 0
      Lamport := 1
      NodeID := 1
      FileID := 1
      LineID := 1
      Content := [97]
      Stream := "feature"
      Timestamp := 1 }

/-- Second source op of the C8 counterexample (file 2). -/
def pmOp2 : Operation :=
  { baseOp with
      Typ := 0
      Lamport := 2
      NodeID := 1
      FileID := 2
      LineID := 2
      Content := [98]
      Stream := "feature"
      Timestamp := 2 }

/-- First source commit of the C8 counterexample. -/
def pmC1 : Commit :=
  { ID := "k1", Stream := "feature", Message := "first", AuthorName := "u"
    AuthorEmail := "e", Timestamp := 1, Signature := ""
    Operations := [{ Op := pmOp1, OldContent := [] }] }

/-- Second source commit of the C8 counterexample. -/
def pmC2 : Commit :=
  { ID := "k2", Stream := "feature", Message := "second", AuthorName := "u"
    AuthorEmail := "e", Timestamp := 2, Signature := ""
    Operations := [{ Op := pmOp2, OldContent := [] }] }

/-- The repository of the C8 counterexample: two commits in `feature`,
`main` empty. -/
def pmRepo : RepoModel :=
  { streams := ["feature", "main"]
    commits := [("feature", [pmC1, pmC2])]
    logs := [("feature", [(1, [pmOp1]), (2, [pmOp2])])] }

/-- C8, counterexample: on a source with two commits and an empty target,
`MergeStreams` writes two commit records (one copy per source commit, each
with its own ops and message), while `PartialMerge` with an entirely empty
filter writes a single collapsed commit carrying the last source commit id,
a "[merge] "-prefixed message, and ALL source ops — the two operations do not
produce the same state. -/
theorem C8_empty_filter_not_full_merge :
    (lookupD (MergeStreams pmRepo "feature" "main").commits "main" []).map
        (fun c => (c.ID, c.Message, c.Operations.length)) =
      [("k1", "first", 1), ("k2", "second", 1)] ∧
    (lookupD (PartialMerge pmRepo "feature" "main" { FileIDs := [], OpTypes := [] }).commits
        "main" []).map (fun c => (c.ID, c.Message, c.Operations.length)) =
      [("k2", "[merge] second", 2)] ∧
    MergeStreams pmRepo "feature" "main" ≠
      PartialMerge pmRepo "feature" "main" { FileIDs := [], OpTypes := [] } := by
  decide

theorem length_saveIn_le (dir : List Commit) (c : Commit) :
    (saveIn dir c).length ≤ dir.length + 1 := by
  induction dir with
  | nil => simp [saveIn]
  | cons d t ih =>
      unfold saveIn
      split
      · simp
      · simp only [List.length_cons]
        omega

theorem length_le_saveIn (dir : List Commit) (c : Commit) :
    dir.length ≤ (saveIn dir c).length := by
  induction dir with
  | nil => simp [saveIn]
  | cons d t ih =>
      unfold saveIn
      split
      · simp
      · simp only [List.length_cons]
        omega

/-- C8, amended: `PartialMerge` with an entirely empty filter does not behave
as `MergeStreams`; instead of copying each missing source commit it writes at
most ONE commit record into the target (the collapse of all source ops under
the last source commit id), so the target commits directory grows by at most
one record, and never shrinks. -/
theorem C8_empty_filter_single_commit (st : RepoModel) (source target : String) :
    (lookupD st.commits target []).length ≤
      (lookupD (PartialMerge st source target { FileIDs := [], OpTypes := [] }).commits
        target []).length ∧
    (lookupD (PartialMerge st source target { FileIDs := [], OpTypes := [] }).commits
        target []).length ≤ (lookupD st.commits target []).length + 1 := by
  unfold PartialMerge
  rw [if_pos (by exact ⟨rfl, rfl⟩)]
  cases hlast : (ListCommits st source).getLast? with
  | none =>
      simp only []
      exact ⟨Nat.le_refl _, by omega⟩
  | some lastCommit =>
      simp only []
      split
      · exact ⟨Nat.le_refl _, by omega⟩
      · rw [show ∀ eops st2, (replicateOps st2 target eops).commits = st2.commits from
          fun eops st2 => commits_replicateOps eops target st2]
        unfold SaveCommitStream
        simp only []
        rw [lookupD_setEntry_self]
        exact ⟨length_le_saveIn _ _, length_saveIn_le _ _⟩

end Revo
